import Mathlib

/-!
Verification of the mp3_tagger repository: a shallow embedding of the tag
store (src/mp3_track.py), the filename utilities (src/file_utils.py), the
selection synchronizer (src/mp3_tagger.py) and the album-art lookup
(src/album_art_utils.py), together with theorems settling the frozen
claims about the natural-language specification.

The third-party mutagenx ID3 container is not part of the repository
sources; its frame-storage operations are modelled from the spec (section 3
of spec.md), each such definition carrying a doc comment that starts with
"Modelled from the spec:".
-/

namespace MP3Tagger

/-- ID3v2.4 text-frame identifiers of the singleton text fields handled by
MP3Track (mirrors the _KEY_ constants of src/mp3_track.py; the repeatable
COMM and APIC identifiers are separate Frame constructors). -/
inductive TextKey where
  | TIT2 | TPE1 | TPE2 | TALB | TCON | TDRC | TRCK | TCMP
deriving DecidableEq, Repr

/-- Frame identifier string of a singleton text key. -/
def TextKey.str : TextKey → String
  | .TIT2 => "TIT2"
  | .TPE1 => "TPE1"
  | .TPE2 => "TPE2"
  | .TALB => "TALB"
  | .TCON => "TCON"
  | .TDRC => "TDRC"
  | .TRCK => "TRCK"
  | .TCMP => "TCMP"

/-- One metadata frame of the tag container: a singleton text frame, a
comment frame (COMM: description key, language, text) or a picture frame
(APIC: mime, picture type, description, data bytes). TDRC text entries
(ID3TimeStamp values in mutagenx) are modelled by the text string returned
by their get_text method. -/
inductive Frame where
  | text : TextKey → List String → Frame
  | comm : String → String → List String → Frame
  | apic : String → Nat → String → List Nat → Frame
deriving DecidableEq, Repr

/-- Frame identifier (frame type) of a frame. -/
def Frame.ident : Frame → String
  | .text k _ => k.str
  | .comm _ _ _ => "COMM"
  | .apic _ _ _ _ => "APIC"

/-- Text entries of a frame, as iterated by MP3Track._get_frames_text.
Picture frames carry no text and are never passed to that method. -/
def Frame.texts : Frame → List String
  | .text _ ts => ts
  | .comm _ _ ts => ts
  | .apic _ _ _ _ => []

/-- Modelled from the spec: mutagenx ID3.add is not under src/. Spec
section 3: "Multiple frames with the same identifier are legal for comment
and picture types; all other identifiers are singleton (the store enforces
'add replaces all existing frames of that identifier' for singleton kinds,
'add appends' for repeatable kinds when explicitly requested)." -/
def id3Add (f : Frame) (frames : List Frame) : List Frame :=
  match f with
  | .text _ _ => frames.filter (fun g => !(g.ident == f.ident)) ++ [f]
  | _ => frames ++ [f]

/-- The in-memory state of one MP3Track (src/mp3_track.py): the frame set
of its ID3 container, the container's filename attribute, and a ghost
counter of save_tag calls (the bytes written to disk are not modelled;
the counter records how many times persist ran). -/
structure MP3Track where
  frames : List Frame
  filename : String
  saves : Nat
deriving DecidableEq, Repr

/-- Add a frame through the container (MP3Track methods call self._id3.add). -/
def addFrame (f : Frame) (t : MP3Track) : MP3Track :=
  { t with frames := id3Add f t.frames }

/-- MP3Track._get_frames via ID3.getall: all frames with the identifier. -/
def getFrames (ident : String) (t : MP3Track) : List Frame :=
  t.frames.filter (fun f => f.ident == ident)

/-- MP3Track._delete_frames via ID3.delall: drop all frames with the identifier. -/
def deleteFrames (ident : String) (t : MP3Track) : MP3Track :=
  { t with frames := t.frames.filter (fun f => !(f.ident == ident)) }

/-- Python str.rstrip default whitespace set, restricted to ASCII (the
strings stored by the program are ASCII; Unicode spaces are not modelled). -/
def pyIsSpace (c : Char) : Bool :=
  c == ' ' || c == '\t' || c == '\n' || c == '\r' ||
  c == Char.ofNat 11 || c == Char.ofNat 12

/-- Python str.rstrip(): remove trailing whitespace characters. -/
def rstripChars (cs : List Char) : List Char :=
  (cs.reverse.dropWhile pyIsSpace).reverse

/-- Python str.rstrip on strings. -/
def rstrip (s : String) : String :=
  String.mk (rstripChars s.toList)

/-- The concatenation loop of MP3Track._get_frames_text: each text entry is
appended followed by one space. -/
def concatTexts : List String → String
  | [] => ""
  | s :: rest => s ++ " " ++ concatTexts rest

/-- MP3Track._get_frames_text: None when no frame with the identifier
exists, otherwise every text entry of every such frame followed by a
space, with the trailing whitespace removed by rstrip. -/
def getFramesText (ident : String) (t : MP3Track) : Option String :=
  let frames := getFrames ident t
  if frames.isEmpty then none
  else some (rstrip (concatTexts (frames.map Frame.texts).flatten))

/-- MP3Track.set_title. -/
def setTitle (title : String) (t : MP3Track) : MP3Track :=
  addFrame (Frame.text TextKey.TIT2 [title]) t

/-- MP3Track.get_title. -/
def getTitle (t : MP3Track) : Option String := getFramesText "TIT2" t

/-- MP3Track.set_artist. -/
def setArtist (artist : String) (t : MP3Track) : MP3Track :=
  addFrame (Frame.text TextKey.TPE1 [artist]) t

/-- MP3Track.get_artist. -/
def getArtist (t : MP3Track) : Option String := getFramesText "TPE1" t

/-- MP3Track.set_album_artist. -/
def setAlbumArtist (albumArtist : String) (t : MP3Track) : MP3Track :=
  addFrame (Frame.text TextKey.TPE2 [albumArtist]) t

/-- MP3Track.get_album_artist. -/
def getAlbumArtist (t : MP3Track) : Option String := getFramesText "TPE2" t

/-- MP3Track.set_album. -/
def setAlbum (album : String) (t : MP3Track) : MP3Track :=
  addFrame (Frame.text TextKey.TALB [album]) t

/-- MP3Track.get_album. -/
def getAlbum (t : MP3Track) : Option String := getFramesText "TALB" t

/-- MP3Track.set_genre. -/
def setGenre (genre : String) (t : MP3Track) : MP3Track :=
  addFrame (Frame.text TextKey.TCON [genre]) t

/-- MP3Track.get_genre. -/
def getGenre (t : MP3Track) : Option String := getFramesText "TCON" t

/-- The shared shape of the unvalidated singleton setters and of the
success path of the validated ones: self._id3.add(FRAME(encoding=3,
text=value)), a destructive replace of all frames of the identifier. -/
def setTextField (k : TextKey) (v : String) (t : MP3Track) : MP3Track :=
  addFrame (Frame.text k [v]) t

/-- ASCII digit test, the character class [0-9] of the source's regular
expressions. -/
def isAsciiDigit (c : Char) : Bool := '0' ≤ c && c ≤ '9'

/-- Core of the pattern ^[0-9]{4}$ without the end anchor: exactly four
ASCII digits. -/
def yearCore (cs : List Char) : Bool :=
  cs.length == 4 && cs.all isAsciiDigit

/-- Core of the pattern ^[0-9]*/[0-9]*$ without the end anchor: a possibly
empty run of digits, a slash, a possibly empty run of digits. -/
def trackCore (cs : List Char) : Bool :=
  match cs.dropWhile isAsciiDigit with
  | '/' :: post => post.all isAsciiDigit
  | _ => false

/-- Python re.match with an explicit dollar anchor: the dollar matches at
the end of the string or just before a single newline that ends the
string, so the core may also match everything but one trailing newline. -/
def pyFullMatch (core : List Char → Bool) (s : String) : Bool :=
  let cs := s.toList
  core cs || ((cs.getLast? == some '\n') && core cs.dropLast)

/-- MP3Track.set_year: validate against re.match("^[0-9]{4}$", year), then
add a TDRC frame; raise ValueError (no mutation) otherwise. The pair's
second component is the raised error, if any. -/
def setYear (year : String) (t : MP3Track) : MP3Track × Option String :=
  if pyFullMatch yearCore year then
    (addFrame (Frame.text TextKey.TDRC [year]) t, none)
  else
    (t, some "Year must be of the form \"YYYY\".")

/-- MP3Track.get_year. -/
def getYear (t : MP3Track) : Option String := getFramesText "TDRC" t

/-- MP3Track.set_track: validate against re.match("^[0-9]*/[0-9]*$",
track), then add a TRCK frame; raise ValueError (no mutation) otherwise. -/
def setTrack (track : String) (t : MP3Track) : MP3Track × Option String :=
  if pyFullMatch trackCore track then
    (addFrame (Frame.text TextKey.TRCK [track]) t, none)
  else
    (t, some "Track must be of the form \"^[0-9]*/[0-9]*.\"")

/-- MP3Track.get_track. -/
def getTrack (t : MP3Track) : Option String := getFramesText "TRCK" t

/-- MP3Track.set_part_of_compilation: stores canonical "1" or "0". -/
def setPartOfCompilation (isPart : Bool) (t : MP3Track) : MP3Track :=
  if isPart then addFrame (Frame.text TextKey.TCMP ["1"]) t
  else addFrame (Frame.text TextKey.TCMP ["0"]) t

/-- MP3Track.get_part_of_compilation: False when the concatenated TCMP
text is absent or "0", True otherwise. -/
def getPartOfCompilation (t : MP3Track) : Bool :=
  match getFramesText "TCMP" t with
  | none => false
  | some s => if s == "0" then false else true

/-- MP3Track.clear_comments. -/
def clearComments (t : MP3Track) : MP3Track := deleteFrames "COMM" t

/-- MP3Track.add_comment: optionally clear all comment frames, then add a
COMM frame with lang "eng" and the key as description. -/
def addComment (comment key : String) (clearExistingComments : Bool) (t : MP3Track) : MP3Track :=
  let t1 := if clearExistingComments then clearComments t else t
  addFrame (Frame.comm key "eng" [comment]) t1

/-- MP3Track.get_comments. -/
def getComments (t : MP3Track) : Option String := getFramesText "COMM" t

/-- MP3Track.clear_pictures. -/
def clearPictures (t : MP3Track) : MP3Track := deleteFrames "APIC" t

/-- MP3Track.add_picture_from_file and add_picture_from_url share this
behavior: when requested, clear all picture frames first; then check the
guessed MIME type and raise ValueError when it is not PNG or JPEG; then
add an APIC front-cover frame. The mime argument stands for
mimetypes.guess_type(path)[0] and data for the bytes read from the file
or URL (the I/O failure after a successful MIME check is not modelled).
The pair's second component is the raised error, if any. -/
def addPictureFromFile (mime : String) (data : List Nat) (clearExistingPictures : Bool)
    (t : MP3Track) : MP3Track × Option String :=
  let t1 := if clearExistingPictures then clearPictures t else t
  if ["image/png", "image/jpeg"].contains mime then
    (addFrame (Frame.apic mime 3 "Front Cover" data) t1, none)
  else
    (t1, some "Picture mime type must be either image/png or image/jpeg.")

/-- MP3Track.save_tag: persist the frames to disk; modelled as a ghost
counter increment since the on-disk bytes are not part of the model. -/
def saveTag (t : MP3Track) : MP3Track := { t with saves := t.saves + 1 }

/-- Python str.rfind as an index into a character list: the largest index
whose character equals c, if any. -/
def rfindIdx (cs : List Char) (c : Char) : Option Nat :=
  ((List.range cs.length).filter (fun i => cs.getD i ' ' == c)).getLast?

/-- Python os.path.splitext (posix): split at the last dot that comes
after the last path separator and after at least one non-dot character of
the base name (so purely leading dots never start an extension). -/
def splitext (filename : String) : String × String :=
  let cs := filename.toList
  let sepIdx : Int := match rfindIdx cs '/' with | some i => (i : Int) | none => -1
  let dotIdx : Int := match rfindIdx cs '.' with | some i => (i : Int) | none => -1
  if decide (sepIdx < dotIdx) &&
      ((cs.drop (sepIdx + 1).toNat).take (dotIdx - sepIdx - 1).toNat).any
        (fun c => !(c == '.')) then
    (String.mk (cs.take dotIdx.toNat), String.mk (cs.drop dotIdx.toNat))
  else (filename, "")

/-- Python slice s[0:n], where a negative n counts from the end. -/
def pySlice0 (n : Int) (cs : List Char) : List Char :=
  if 0 ≤ n then cs.take n.toNat else cs.take ((cs.length : Int) + n).toNat

/-- file_utils.ensure_valid_filename: split off the extension, remove every
':' from the root, cap the root at 255 minus the extension length, and
reattach the extension. -/
def ensureValidFilename (filename : String) : String :=
  let pair := splitext filename
  let root := pair.1
  let ext := pair.2
  String.mk (pySlice0 ((255 : Int) - ext.length) (root.toList.filter (fun c => !(c == ':')))) ++ ext

/-- Python os.path.dirname (posix): everything before the last separator,
with trailing separators stripped unless the result is all separators. -/
def dirname (p : String) : String :=
  let cs := p.toList
  let head := (cs.reverse.dropWhile (fun c => !(c == '/'))).reverse
  if head.all (fun c => c == '/') then String.mk head
  else String.mk ((head.reverse.dropWhile (fun c => c == '/')).reverse)

/-- Python os.path.basename (posix): everything after the last separator. -/
def basename (p : String) : String :=
  String.mk ((p.toList.reverse.takeWhile (fun c => !(c == '/'))).reverse)

/-- Python os.path.join (posix) for the two-argument case. -/
def joinPath (head tl : String) : String :=
  if tl.toList.head? == some '/' then tl
  else if head == "" || head.toList.getLast? == some '/' then head ++ tl
  else head ++ "/" ++ tl

/-- MP3Track.rename_file over a filesystem modelled as the list of
existing paths: sanitize the base name, join it onto the directory of the
current path, raise FileExistsError when the target exists, otherwise
move the file (os.replace, which raises when the source is missing) and
reload the container at the new path. Modelled from the spec: the frame
effect of mutagenx ID3.load is not under src/; per spec section 4.1,
rename "atomically moves the file and updates file_path", so the reload
is modelled as updating the filename attribute only. -/
def renameFile (t : MP3Track) (fs : List String) (newBaseFilename : String) :
    Except String (MP3Track × List String) :=
  let originalPath := t.filename
  let prefixPath := dirname originalPath
  let validFilename := ensureValidFilename newBaseFilename
  let newPath := joinPath prefixPath validFilename
  if fs.contains newPath then
    .error "Cannot rename file. File with same name already exists."
  else if fs.contains originalPath then
    .ok ({ t with filename := newPath }, newPath :: fs.filter (fun p => !(p == originalPath)))
  else
    .error "FileNotFoundError"

/-! ## Selection synchronizer (src/mp3_tagger.py) -/

/-- The setter method name a Field was configured with (the nine fields
added in TrackEditorForm.create). -/
inductive SetterId where
  | title | artist | albumArtist | album | genre | year | track | comment | compilation
deriving DecidableEq, Repr

/-- The value held by a field's entry widget: a string for text entry
fields, a boolean for toggle checkboxes. -/
inductive EntryValue where
  | str : String → EntryValue
  | flag : Bool → EntryValue
deriving DecidableEq, Repr

/-- One editor field as relevant to applying values: the state of its
selection checkbox, its configured setter, and its entry widget value. -/
structure Field where
  selected : Bool
  setter : SetterId
  value : EntryValue
deriving DecidableEq, Repr

/-- Field.apply_value_to_track: invoke the configured setter with the
entry widget value. Comment fields call add_comment with its default key
"comment_key" and default clear_existing_comments=True. Invocations whose
value shape does not match the setter cannot be produced by the UI and
are modelled as a TypeError. -/
def applySetter : SetterId → EntryValue → MP3Track → MP3Track × Option String
  | .title, .str s, t => (setTitle s t, none)
  | .artist, .str s, t => (setArtist s t, none)
  | .albumArtist, .str s, t => (setAlbumArtist s t, none)
  | .album, .str s, t => (setAlbum s t, none)
  | .genre, .str s, t => (setGenre s t, none)
  | .year, .str s, t => setYear s t
  | .track, .str s, t => setTrack s t
  | .comment, .str s, t => (addComment s "comment_key" true t, none)
  | .compilation, .flag b, t => (setPartOfCompilation b t, none)
  | _, _, t => (t, some "TypeError")

/-- The inner loop of TrackEditorForm.save_entries_to_tracks over one
track: apply each selected field in order; a raised setter error stops
the loop, leaving the track in its partially updated state. -/
def applyFieldsToTrack (fields : List Field) (t : MP3Track) : MP3Track × Option String :=
  match fields with
  | [] => (t, none)
  | f :: rest =>
    if f.selected then
      match applySetter f.setter f.value t with
      | (t2, none) => applyFieldsToTrack rest t2
      | (t2, some e) => (t2, some e)
    else applyFieldsToTrack rest t

/-- TrackEditorForm.save_entries_to_tracks: for each selected track apply
every selected field, then call save_tag on the track; an uncaught setter
error propagates out of the method, so the failing track is not saved
and the remaining tracks are not processed. Returns the final state of
all tracks together with the propagated error, if any. -/
def saveEntriesToTracks (fields : List Field) (tracks : List MP3Track) :
    List MP3Track × Option String :=
  match tracks with
  | [] => ([], none)
  | t :: rest =>
    match applyFieldsToTrack fields t with
    | (t2, some e) => (t2 :: rest, some e)
    | (t2, none) =>
      let out := saveEntriesToTracks fields rest
      (saveTag t2 :: out.1, out.2)

/-- The per-field view over a selection computed by
Field.update_value_from_tracks: no tracks, one agreed value, or a
conflict ("Multiple Values"). -/
inductive FieldViewState (α : Type) where
  | empty : FieldViewState α
  | singleValue : α → FieldViewState α
  | conflict : FieldViewState α
deriving DecidableEq, Repr

/-- The scan loop of Field.update_value_from_tracks: walk the selection
and stop at the first value different from the reference value. -/
def scanMismatch [DecidableEq α] (ref : α) : List α → Bool
  | [] => false
  | v :: rest => if ref = v then scanMismatch ref rest else true

/-- Field.update_value_from_tracks on the getter values of the selected
tracks: empty selection clears the field; otherwise one track is popped
as reference (pick indexes the arbitrary iteration order; set.pop always
returns a member, so an out-of-range pick defaults to the head) and the
whole selection is scanned against it, marking a conflict at the first
mismatch. -/
def updateValueFromTracks [DecidableEq α] (values : List α) (pick : Nat) : FieldViewState α :=
  match values with
  | [] => .empty
  | v :: vs =>
    let ref := (v :: vs).getD pick v
    if scanMismatch ref (v :: vs) then .conflict else .singleValue ref

/-! ## Batch rename (TrackEditorForm.rename_files) -/

/-- The synchronizer state: the filesystem (existing paths), the
self.mp3_tracks dictionary mapping file paths to store instances (store
instances are identified by a numeric id so that identity is observable),
and the backing stores. Python dict insertion order is modelled by the
association list order. -/
structure TaggerState where
  fs : List String
  index : List (String × Nat)
  stores : List (Nat × MP3Track)
deriving DecidableEq, Repr

/-- Dictionary lookup self.mp3_tracks[path]. -/
def lookupIndex (index : List (String × Nat)) (p : String) : Option Nat :=
  match index.find? (fun e => e.1 == p) with
  | some e => some e.2
  | none => none

/-- Dictionary deletion del self.mp3_tracks[path]. -/
def removeKey (index : List (String × Nat)) (p : String) : List (String × Nat) :=
  index.filter (fun e => !(e.1 == p))

/-- Dictionary assignment self.mp3_tracks[path] = track: replace in place
when the key exists, append otherwise. -/
def insertKey (index : List (String × Nat)) (p : String) (i : Nat) : List (String × Nat) :=
  if index.any (fun e => e.1 == p) then
    index.map (fun e => if e.1 == p then (p, i) else e)
  else index ++ [(p, i)]

/-- Resolve a store id to its current state. -/
def lookupStore (stores : List (Nat × MP3Track)) (i : Nat) : Option MP3Track :=
  match stores.find? (fun e => e.1 == i) with
  | some e => some e.2
  | none => none

/-- Mutate the store with the given id in place. -/
def updateStore (stores : List (Nat × MP3Track)) (i : Nat) (t : MP3Track) :
    List (Nat × MP3Track) :=
  stores.map (fun e => if e.1 == i then (i, t) else e)

/-- The per-file error report accumulated by rename_files. -/
structure RenameReport where
  notEnoughInfo : List String
  alreadyExist : List String
deriving DecidableEq, Repr

/-- The file_name_info list of rename_files: whichever of artist, album
and title are non-absent, in that order. -/
def fileNameInfoOf (track : MP3Track) : List String :=
  (match getArtist track with | some a => [a] | none => []) ++
  (match getAlbum track with | some a => [a] | none => []) ++
  (match getTitle track with | some a => [a] | none => [])

/-- The new_base_filename computed by rename_files: the dash-joined info
fields with the mp3 extension. -/
def newBaseOf (track : MP3Track) : String :=
  String.intercalate " - " (fileNameInfoOf track) ++ ".mp3"

/-- One iteration of the rename_files loop for a selected path: look the
track up, build "artist - album - title.mp3" from the non-absent fields,
record an insufficient-metadata failure when all are absent, skip when
the basename is already right, record a name-collision failure when
rename_file raises FileExistsError, and otherwise re-key the dictionary
entry from the old path to the track's new path. A missing dictionary
key would be a KeyError; the result is none in that unreachable case. -/
def renameFilesStep (st : TaggerState) (rep : RenameReport) (fp : String) :
    Option (TaggerState × RenameReport) :=
  match lookupIndex st.index fp with
  | none => none
  | some tid =>
    match lookupStore st.stores tid with
    | none => none
    | some track =>
      if (fileNameInfoOf track).isEmpty then
        some (st, { rep with notEnoughInfo := rep.notEnoughInfo ++ [fp] })
      else if basename track.filename == newBaseOf track then some (st, rep)
      else
        match renameFile track st.fs (newBaseOf track) with
        | .error _ => some (st, { rep with alreadyExist := rep.alreadyExist ++ [fp] })
        | .ok (track2, fs2) =>
          some ({ fs := fs2,
                  index := insertKey (removeKey st.index fp) track2.filename tid,
                  stores := updateStore st.stores tid track2 }, rep)

/-- The rename_files loop over the selected paths, threading state and
report. -/
def renameFilesGo (st : TaggerState) (rep : RenameReport) :
    List String → Option (TaggerState × RenameReport)
  | [] => some (st, rep)
  | fp :: rest =>
    match renameFilesStep st rep fp with
    | none => none
    | some (st2, rep2) => renameFilesGo st2 rep2 rest

/-- TrackEditorForm.rename_files on a list of selected paths, starting
from an empty report (the final aggregated error popup and the file-list
refresh are UI rendering and are not modelled). -/
def renameFiles (st : TaggerState) (selected : List String) :
    Option (TaggerState × RenameReport) :=
  renameFilesGo st { notEnoughInfo := [], alreadyExist := [] } selected

/-- Whether the store with the given id currently records the given path
as its filename. -/
def storeFilenameIs (stores : List (Nat × MP3Track)) (i : Nat) (p : String) : Bool :=
  match lookupStore stores i with
  | some t => t.filename == p
  | none => false

/-- Consistency of the synchronizer state: dictionary keys are distinct
(at most one store per path), every key is an existing file path, and
every entry's store records that key as its current filename. -/
def Consistent (st : TaggerState) : Prop :=
  (st.index.map (fun e => e.1)).Nodup ∧
  (∀ e ∈ st.index, e.1 ∈ st.fs) ∧
  (∀ e ∈ st.index, storeFilenameIs st.stores e.2 e.1 = true)

instance (st : TaggerState) : Decidable (Consistent st) := by
  unfold Consistent; infer_instance

/-! ## Album-art lookup (src/album_art_utils.py) -/

/-- Python str.replace on character lists: scan left to right and replace
each non-overlapping occurrence of the pattern. The fuel argument (always
called with the list length) only makes the recursion structural; the
call sites use non-empty patterns, for which the fuel never runs out. -/
def pyReplaceLoop (pat repl : List Char) : Nat → List Char → List Char
  | 0, cs => cs
  | _, [] => []
  | fuel + 1, c :: rest =>
    if pat ≠ [] ∧ (c :: rest).take pat.length = pat then
      repl ++ pyReplaceLoop pat repl fuel ((c :: rest).drop pat.length)
    else c :: pyReplaceLoop pat repl fuel rest

/-- Python str.replace(old, new) for a non-empty old string. -/
def pyReplace (s pat repl : String) : String :=
  String.mk (pyReplaceLoop pat.toList repl.toList s.toList.length s.toList)

/-- One entry of the JSON "results" array, reduced to the only key the
code reads: its artworkUrl100 value, when present. -/
structure SearchResult where
  artworkUrl100 : Option String
deriving DecidableEq, Repr

/-- An HTTP response as observed by fetch_album_art: its status code and
the "results" array of its JSON body (none when the body is not JSON or
has no "results" key, in which case reading it raises). -/
structure HTTPResponse where
  statusCode : Nat
  results : Option (List SearchResult)
deriving DecidableEq, Repr

/-- requests.codes.ok. -/
def requestsCodesOk : Nat := 200

/-- Whether response.raise_for_status() raises HTTPError: true exactly for
4xx and 5xx status codes. -/
def raiseForStatusFails (r : HTTPResponse) : Bool :=
  400 ≤ r.statusCode && r.statusCode < 600

/-- The iTunes search URL built by fetch_album_art for an already
escaped query. -/
def searchUrlFor (query : String) : String :=
  "https://itunes.apple.com/search?term=" ++ query ++ "&media=music&entity=album"

/-- The tail of fetch_album_art: read results.json()["results"] (raising
when the body has no results array), keep each entry's artworkUrl100 and
upgrade it to the 1200x1200 resolution. -/
def parseResultUrls (r : HTTPResponse) : Except String (List String) :=
  match r.results with
  | none => .error "KeyError"
  | some rs =>
    .ok (rs.filterMap (fun res =>
      res.artworkUrl100.map (fun u => pyReplace u "100x100" "1200x1200")))

/-- The response handling of fetch_album_art: raise_for_status is invoked
only when the status code equals requests.codes.ok, and in every other
case the body is parsed directly. -/
def handleResponse (r : HTTPResponse) : Except String (List String) :=
  if r.statusCode == requestsCodesOk then
    if raiseForStatusFails r then .error "HTTPError" else parseResultUrls r
  else parseResultUrls r

/-- album_art_utils.fetch_album_art: replace spaces with plus signs,
dispatch the iTunes search request, and handle the response, where
httpGet is the requests.get collaborator. -/
def fetchAlbumArt (httpGet : String → HTTPResponse) (query : String) :
    Except String (List String) :=
  let query2 := pyReplace query " " "+"
  let searchUrl := searchUrlFor query2
  let results := httpGet searchUrl
  handleResponse results

/-! ## Shared helper lemmas -/

theorem toList_append (a b : String) : (a ++ b).toList = a.toList ++ b.toList :=
  String.data_append a b

theorem rstripChars_append_space (cs : List Char) :
    rstripChars (cs ++ [' ']) = rstripChars cs := by
  simp [rstripChars, List.dropWhile_cons, pyIsSpace]

theorem rstrip_append_space (s : String) : rstrip (s ++ " ") = rstrip s := by
  unfold rstrip
  rw [toList_append]
  exact congrArg String.mk (rstripChars_append_space s.toList)

theorem rstripChars_eq_self (cs : List Char)
    (h : cs.getLast?.all (fun c => !(pyIsSpace c)) = true) : rstripChars cs = cs := by
  unfold rstripChars
  cases hrev : cs.reverse with
  | nil =>
    have : cs = [] := by simpa using congrArg List.reverse hrev
    simp [this]
  | cons c rest =>
    have hlast : cs.getLast? = some c := by
      rw [← List.head?_reverse, hrev]; rfl
    rw [hlast] at h
    simp only [Option.all_some] at h
    rw [List.dropWhile_cons]
    simp only [Bool.not_eq_true'] at h
    rw [h]
    simp only [Bool.false_eq_true, if_false]
    rw [← hrev, List.reverse_reverse]

theorem getFramesText_congr (ident : String) (t u : MP3Track) (h : t.frames = u.frames) :
    getFramesText ident t = getFramesText ident u := by
  unfold getFramesText getFrames
  rw [h]

theorem getFrames_addFrame_text_self (k : TextKey) (vs : List String) (t : MP3Track) :
    getFrames k.str (addFrame (Frame.text k vs) t) = [Frame.text k vs] := by
  unfold getFrames addFrame id3Add
  simp only [Frame.ident, List.filter_append, List.filter_filter]
  rw [List.filter_eq_nil_iff.mpr (fun a _ => by simp [Bool.and_not_self])]
  simp [Frame.ident]

theorem getFramesText_setTextField (k : TextKey) (v : String) (t : MP3Track) :
    getFramesText k.str (setTextField k v t) = some (rstrip v) := by
  unfold getFramesText setTextField
  rw [getFrames_addFrame_text_self]
  simp only [List.isEmpty_cons, Bool.false_eq_true, if_false, List.map_cons, List.map_nil,
    List.flatten, Frame.texts, List.append_nil, concatTexts]
  have : rstrip (v ++ " " ++ "") = rstrip v := by
    unfold rstrip
    rw [toList_append, toList_append]
    exact congrArg String.mk (by simpa using rstripChars_append_space v.toList)
  rw [this]

/-! ## C8: set_year validation -/

/-- C8 counterexample: set_year accepts the five-character value
"1999\n", which is not exactly four decimal digits, because the Python
dollar anchor of re.match("^[0-9]{4}$", year) also matches just before a
trailing newline. -/
theorem setYear_newline_counterexample :
    (setYear "1999\n" ⟨[], "x", 0⟩).2 = none ∧
    (setYear "1999\n" ⟨[], "x", 0⟩).1 ≠ (⟨[], "x", 0⟩ : MP3Track) ∧
    "1999\n".toList.length ≠ 4 := by decide

/-- C8 (amended): set_year succeeds, replacing the year frame, exactly
when the value is four ASCII digits or four ASCII digits followed by one
trailing newline (an artifact of the Python dollar anchor); every other
value makes it fail with ValueError and leaves the track unchanged. -/
theorem setYear_spec (year : String) (t : MP3Track) :
    ((setYear year t).2 = none ↔
      (yearCore year.toList = true ∨
        (year.toList.getLast? = some '\n' ∧ yearCore year.toList.dropLast = true))) ∧
    ((setYear year t).2 = none →
      (setYear year t).1 = addFrame (Frame.text TextKey.TDRC [year]) t) ∧
    ((setYear year t).2 ≠ none →
      setYear year t = (t, some "Year must be of the form \"YYYY\".")) := by
  have hiff : pyFullMatch yearCore year = true ↔
      (yearCore year.toList = true ∨
        (year.toList.getLast? = some '\n' ∧ yearCore year.toList.dropLast = true)) := by
    simp [pyFullMatch]
  refine ⟨?_, ?_, ?_⟩
  · rw [← hiff]
    unfold setYear
    cases h : pyFullMatch yearCore year <;> simp [h]
  · unfold setYear
    cases h : pyFullMatch yearCore year <;> simp [h]
  · unfold setYear
    cases h : pyFullMatch yearCore year <;> simp [h]

/-- C8 witness: set_year on the valid value "1999" succeeds and stores the
year frame. -/
theorem setYear_spec_witness :
    (setYear "1999" ⟨[], "x", 0⟩).1 =
      addFrame (Frame.text TextKey.TDRC ["1999"]) ⟨[], "x", 0⟩ :=
  (setYear_spec "1999" ⟨[], "x", 0⟩).2.1 (by decide)

/-! ## C1: picture MIME validation and atomicity -/

/-- C1 counterexample: adding a GIF picture with the default
clear_existing_pictures=True raises the validation error, but the frame
set has been mutated: the existing front-cover frame is gone. -/
theorem addPicture_gif_mutates_counterexample :
    (addPictureFromFile "image/gif" [] true
        ⟨[Frame.apic "image/png" 3 "Front Cover" [1]], "x", 0⟩).2.isSome = true ∧
    (addPictureFromFile "image/gif" [] true
        ⟨[Frame.apic "image/png" 3 "Front Cover" [1]], "x", 0⟩).1 ≠
      (⟨[Frame.apic "image/png" 3 "Front Cover" [1]], "x", 0⟩ : MP3Track) := by
  decide

/-- C1 (amended): a picture-setting call with a MIME type outside
{image/png, image/jpeg} fails with the validation error and stores no
picture; but when clear_existing_pictures is true (the default) the
existing picture frames are cleared before the MIME check, so the
resulting frame set is the original one minus its picture frames; only
with clear_existing_pictures=false is the frame set fully unchanged. -/
theorem addPicture_invalid_mime_spec (mime : String) (data : List Nat)
    (clear : Bool) (t : MP3Track)
    (h : ["image/png", "image/jpeg"].contains mime = false) :
    addPictureFromFile mime data clear t =
      ((if clear then clearPictures t else t),
        some "Picture mime type must be either image/png or image/jpeg.") ∧
    (clear = false → (addPictureFromFile mime data clear t).1 = t) := by
  have h2 : ¬mime = "image/png" ∧ ¬mime = "image/jpeg" := by simpa using h
  constructor
  · simp [addPictureFromFile, h2.1, h2.2]
  · intro hc
    subst hc
    simp [addPictureFromFile, h2.1, h2.2]

/-- C1 witness: the amended statement at MIME image/gif on a track with
one picture frame. -/
theorem addPicture_invalid_mime_spec_witness :
    addPictureFromFile "image/gif" [] true
        ⟨[Frame.apic "image/png" 3 "Front Cover" [1]], "x", 0⟩ =
      ((if true then clearPictures ⟨[Frame.apic "image/png" 3 "Front Cover" [1]], "x", 0⟩
        else ⟨[Frame.apic "image/png" 3 "Front Cover" [1]], "x", 0⟩),
        some "Picture mime type must be either image/png or image/jpeg.") :=
  (addPicture_invalid_mime_spec "image/gif" [] true
    ⟨[Frame.apic "image/png" 3 "Front Cover" [1]], "x", 0⟩ (by decide)).1

/-! ## C10: album-art lookup -/

/-- C10 counterexample: on a non-success response whose body carries no
results array (the usual shape of an HTTP error page) fetch_album_art
raises an uncaught KeyError instead of returning the empty candidate
list, because the inverted status check lets the body be parsed. -/
theorem fetchAlbumArt_nonsuccess_counterexample :
    fetchAlbumArt (fun _ => ⟨404, none⟩) "a b" = .error "KeyError" := rfl

/-- C10 (amended): fetch_album_art does replace every literal space in
the query with a plus sign before dispatching the request, and an empty
result list does come back as the empty candidate list; but the success
check is inverted (raise_for_status is invoked only on OK responses,
where it never raises), so no HTTP error is ever raised: the body is
parsed regardless of status code, and a body without a results array
makes the call raise an uncaught KeyError rather than report "no
candidates". -/
theorem fetchAlbumArt_spec (httpGet : String → HTTPResponse) (query : String) :
    fetchAlbumArt httpGet query =
      handleResponse (httpGet (searchUrlFor (pyReplace query " " "+"))) ∧
    (∀ r : HTTPResponse, handleResponse r = parseResultUrls r) ∧
    (∀ r : HTTPResponse, r.results = some [] → handleResponse r = .ok []) := by
  refine ⟨rfl, ?_, ?_⟩
  · intro r
    unfold handleResponse raiseForStatusFails requestsCodesOk
    by_cases h : r.statusCode = 200
    · simp [h]
    · simp [h]
  · intro r hr
    have h2 : handleResponse r = parseResultUrls r := by
      unfold handleResponse raiseForStatusFails requestsCodesOk
      by_cases h : r.statusCode = 200
      · simp [h]
      · simp [h]
    rw [h2]
    simp [parseResultUrls, hr]

/-- C10 witness: a 404 response with an empty results array yields the
empty candidate list. -/
theorem fetchAlbumArt_spec_witness :
    fetchAlbumArt (fun _ => ⟨404, some []⟩) "a b" = .ok [] := by
  have h := fetchAlbumArt_spec (fun _ => HTTPResponse.mk 404 (some [])) "a b"
  rw [h.1]
  exact h.2.2 _ rfl

/-! ## C6: set/get round trip -/

/-- C6 counterexample: set_text with the value "A " (trailing space)
followed by get returns "A", not "A ": the concatenation loop appends a
space after every frame text and rstrip then removes all trailing
whitespace, not just the appended separator. -/
theorem roundtrip_trailing_space_counterexample :
    getTitle (setTitle "A " ⟨[], "x", 0⟩) = some "A" ∧
    getTitle (setTitle "A " ⟨[], "x", 0⟩) ≠ some "A " := by decide

/-- C6 (amended): for every singleton text field, set_text followed by
get returns the written value with its trailing whitespace removed — and
hence exactly the written value whenever it does not end in whitespace;
the compilation flag round-trips exactly through the canonical "0"/"1"
text. -/
theorem set_get_roundtrip (k : TextKey) (v : String) (b : Bool) (t u : MP3Track) :
    getFramesText k.str (setTextField k v t) = some (rstrip v) ∧
    (v.toList.getLast?.all (fun c => !(pyIsSpace c)) = true →
      getFramesText k.str (setTextField k v t) = some v) ∧
    getPartOfCompilation (setPartOfCompilation b u) = b := by
  refine ⟨getFramesText_setTextField k v t, ?_, ?_⟩
  · intro h
    rw [getFramesText_setTextField k v t]
    unfold rstrip
    rw [rstripChars_eq_self v.toList h]
    rfl
  · cases b with
    | true =>
      have h1 : getFramesText "TCMP" (addFrame (Frame.text TextKey.TCMP ["1"]) u) =
          some (rstrip "1") := getFramesText_setTextField TextKey.TCMP "1" u
      have hr : rstrip "1" = "1" := by decide
      rw [hr] at h1
      show getPartOfCompilation (addFrame (Frame.text TextKey.TCMP ["1"]) u) = true
      unfold getPartOfCompilation
      rw [h1]
      rfl
    | false =>
      have h1 : getFramesText "TCMP" (addFrame (Frame.text TextKey.TCMP ["0"]) u) =
          some (rstrip "0") := getFramesText_setTextField TextKey.TCMP "0" u
      have hr : rstrip "0" = "0" := by decide
      rw [hr] at h1
      show getPartOfCompilation (addFrame (Frame.text TextKey.TCMP ["0"]) u) = false
      unfold getPartOfCompilation
      rw [h1]
      rfl

/-- C6 witness: the round trip at field TIT2 and value "A", which has no
trailing whitespace. -/
theorem set_get_roundtrip_witness :
    getFramesText (TextKey.TIT2).str (setTextField TextKey.TIT2 "A" ⟨[], "x", 0⟩) = some "A" :=
  (set_get_roundtrip TextKey.TIT2 "A" true ⟨[], "x", 0⟩ ⟨[], "x", 0⟩).2.1 (by decide)

/-! ## C9: coexisting comments -/

/-- C9: two comments appended with clear_existing_comments=false coexist
as two COMM frames whatever their keys are (equal or distinct), and
get_comments exposes the space-joined concatenation of both texts.
The append semantics of the container for repeatable frames is modelled
from the spec (see id3Add). -/
theorem addComment_append_coexists (c1 k1 c2 k2 : String) (t : MP3Track)
    (h : getFrames "COMM" t = []) :
    getFrames "COMM" (addComment c2 k2 false (addComment c1 k1 false t)) =
      [Frame.comm k1 "eng" [c1], Frame.comm k2 "eng" [c2]] ∧
    getComments (addComment c2 k2 false (addComment c1 k1 false t)) =
      some (rstrip (c1 ++ " " ++ c2)) := by
  have hframes : (addComment c2 k2 false (addComment c1 k1 false t)).frames =
      t.frames ++ [Frame.comm k1 "eng" [c1]] ++ [Frame.comm k2 "eng" [c2]] := rfl
  have hget : getFrames "COMM" (addComment c2 k2 false (addComment c1 k1 false t)) =
      [Frame.comm k1 "eng" [c1], Frame.comm k2 "eng" [c2]] := by
    unfold getFrames at h ⊢
    rw [hframes, List.filter_append, List.filter_append, h]
    rfl
  refine ⟨hget, ?_⟩
  unfold getComments getFramesText
  rw [hget]
  simp only [List.isEmpty_cons, Bool.false_eq_true, if_false, List.map_cons, List.map_nil,
    Frame.texts, List.flatten_cons, List.flatten_nil, List.singleton_append,
    List.append_nil, List.nil_append, concatTexts]
  congr 1
  unfold rstrip
  apply congrArg String.mk
  have e1 : (c1 ++ " " ++ (c2 ++ " " ++ "")).toList = (c1 ++ " " ++ c2).toList ++ [' '] := by
    simp [toList_append]
  rw [e1, rstripChars_append_space]

/-- C9 witness: two comments with the same key "k" coexist and get
returns their concatenation. -/
theorem addComment_append_coexists_witness :
    getFrames "COMM" (addComment "c2" "k" false (addComment "c1" "k" false ⟨[], "x", 0⟩)) =
      [Frame.comm "k" "eng" ["c1"], Frame.comm "k" "eng" ["c2"]] ∧
    getComments (addComment "c2" "k" false (addComment "c1" "k" false ⟨[], "x", 0⟩)) =
      some (rstrip ("c1" ++ " " ++ "c2")) :=
  addComment_append_coexists "c1" "k" "c2" "k" ⟨[], "x", 0⟩ rfl

/-! ## C3: rename failure condition -/

/-- C3 counterexample: renaming a track to its own current basename
fails with FileExistsError (the target path is the file's own existing
path), where the claim says it succeeds as a no-op; the skip for
identical basenames is implemented by the batch caller, not by rename. -/
theorem rename_same_name_fails_counterexample :
    joinPath (dirname "d/a.mp3") (ensureValidFilename "a.mp3") = "d/a.mp3" ∧
    renameFile ⟨[], "d/a.mp3", 0⟩ ["d/a.mp3"] "a.mp3" =
      .error "Cannot rename file. File with same name already exists." :=
  ⟨rfl, rfl⟩

/-- C3 (amended): rename_file fails with FileExistsError exactly when the
sanitized target path already exists — including when that target equals
the file's own current path, so an identical basename fails rather than
no-op succeeding; when the target is free and the source exists, the
file is moved and file_path updated. -/
theorem rename_fileExists_iff (t : MP3Track) (fs : List String) (b : String) :
    (fs.contains (joinPath (dirname t.filename) (ensureValidFilename b)) = true →
      renameFile t fs b =
        .error "Cannot rename file. File with same name already exists.") ∧
    (fs.contains (joinPath (dirname t.filename) (ensureValidFilename b)) = false →
      renameFile t fs b ≠
        .error "Cannot rename file. File with same name already exists.") ∧
    (fs.contains (joinPath (dirname t.filename) (ensureValidFilename b)) = false →
      fs.contains t.filename = true →
      renameFile t fs b =
        .ok ({ t with filename := joinPath (dirname t.filename) (ensureValidFilename b) },
          joinPath (dirname t.filename) (ensureValidFilename b) ::
            fs.filter (fun p => !(p == t.filename)))) := by
  refine ⟨?_, ?_, ?_⟩
  · intro h
    simp only [renameFile, h]
    rfl
  · intro h
    simp only [renameFile, h, Bool.false_eq_true, if_false]
    cases h2 : fs.contains t.filename with
    | true =>
      simp only [h2, eq_self_iff_true, if_true]
      exact fun hcontra => Except.noConfusion hcontra
    | false =>
      simp only [h2, Bool.false_eq_true, if_false]
      intro hcontra
      injection hcontra with h3
      exact absurd h3 (by decide)
  · intro h h2
    simp only [renameFile, h, h2, Bool.false_eq_true, if_false, eq_self_iff_true, if_true]

/-- C3 witness: a rename whose sanitized target collides with a different
existing file fails with FileExistsError. -/
theorem rename_fileExists_iff_witness :
    renameFile ⟨[], "d/a.mp3", 0⟩ ["d/a.mp3", "d/b.mp3"] "b.mp3" =
      .error "Cannot rename file. File with same name already exists." :=
  (rename_fileExists_iff ⟨[], "d/a.mp3", 0⟩ ["d/a.mp3", "d/b.mp3"] "b.mp3").1 (by decide)

/-! ## C4: rename changes only the path -/

/-- C4: a successful rename changes only file_path: the frame set, the
persist counter and therefore every value observable through the getters
— including unsaved in-memory edits, since the frames are the in-memory
state — are identical before and after. The container reload performed
by rename is modelled from the spec as a filename update (see
renameFile). -/
theorem rename_preserves_frames (t : MP3Track) (fs : List String) (b : String)
    (t2 : MP3Track) (fs2 : List String)
    (h : renameFile t fs b = .ok (t2, fs2)) :
    t2.frames = t.frames ∧ t2.saves = t.saves ∧
    t2.filename = joinPath (dirname t.filename) (ensureValidFilename b) ∧
    (∀ ident, getFramesText ident t2 = getFramesText ident t) ∧
    getPartOfCompilation t2 = getPartOfCompilation t := by
  by_cases h1 : fs.contains (joinPath (dirname t.filename) (ensureValidFilename b)) = true
  · exfalso
    simp only [renameFile, h1, eq_self_iff_true, if_true] at h
    exact Except.noConfusion h
  · rw [Bool.not_eq_true] at h1
    simp only [renameFile, h1, Bool.false_eq_true, if_false] at h
    by_cases h2 : fs.contains t.filename = true
    · simp only [h2, eq_self_iff_true, if_true, Except.ok.injEq, Prod.mk.injEq] at h
      obtain ⟨ha, hb⟩ := h
      subst ha
      have hget : ∀ ident,
          getFramesText ident
            { frames := t.frames,
              filename := joinPath (dirname t.filename) (ensureValidFilename b),
              saves := t.saves } =
          getFramesText ident t := fun ident => getFramesText_congr ident _ t rfl
      refine ⟨rfl, rfl, rfl, hget, ?_⟩
      unfold getPartOfCompilation
      rw [hget "TCMP"]
    · exfalso
      rw [Bool.not_eq_true] at h2
      simp only [h2, Bool.false_eq_true, if_false] at h
      exact Except.noConfusion h

/-- C4 witness: a concrete successful rename leaves the title frame and
the getter value unchanged. -/
theorem rename_preserves_frames_witness :
    (⟨[Frame.text TextKey.TIT2 ["T"]], "d/b.mp3", 0⟩ : MP3Track).frames =
      (⟨[Frame.text TextKey.TIT2 ["T"]], "d/a.mp3", 0⟩ : MP3Track).frames ∧
    getFramesText "TIT2" (⟨[Frame.text TextKey.TIT2 ["T"]], "d/b.mp3", 0⟩ : MP3Track) =
      getFramesText "TIT2" (⟨[Frame.text TextKey.TIT2 ["T"]], "d/a.mp3", 0⟩ : MP3Track) := by
  have h := rename_preserves_frames ⟨[Frame.text TextKey.TIT2 ["T"]], "d/a.mp3", 0⟩
    ["d/a.mp3"] "b.mp3" ⟨[Frame.text TextKey.TIT2 ["T"]], "d/b.mp3", 0⟩ ["d/b.mp3"] rfl
  exact ⟨h.1, h.2.2.2.1 "TIT2"⟩

/-! ## C7: per-field diff across the selection -/

theorem scanMismatch_eq_false_of_all {α : Type} [DecidableEq α] (ref : α) (l : List α)
    (h : ∀ x ∈ l, x = ref) : scanMismatch ref l = false := by
  induction l with
  | nil => rfl
  | cons a l ih =>
    unfold scanMismatch
    rw [if_pos (h a (List.mem_cons_self a l)).symm]
    exact ih (fun x hx => h x (List.mem_cons_of_mem a hx))

theorem scanMismatch_eq_true_of_mem {α : Type} [DecidableEq α] (ref x : α) (l : List α)
    (hx : x ∈ l) (hne : x ≠ ref) : scanMismatch ref l = true := by
  induction l with
  | nil => cases hx
  | cons a l ih =>
    unfold scanMismatch
    by_cases ha : ref = a
    · rw [if_pos ha]
      rcases List.mem_cons.mp hx with h1 | h1
      · exact absurd (h1.trans ha.symm) hne
      · exact ih h1
    · rw [if_neg ha]

theorem getD_mem_or_default {α : Type} (l : List α) (i : Nat) (d : α) :
    l.getD i d ∈ l ∨ l.getD i d = d := by
  induction l generalizing i with
  | nil => right; cases i <;> rfl
  | cons a l ih =>
    cases i with
    | zero => left; exact List.mem_cons_self a l
    | succ n =>
      rcases ih n with h | h
      · left; exact List.mem_cons_of_mem a h
      · right; exact h

theorem updateValue_all_eq {α : Type} [DecidableEq α] (v : α) (vs : List α) (c : α) (i : Nat)
    (hall : ∀ x ∈ v :: vs, x = c) :
    updateValueFromTracks (v :: vs) i = FieldViewState.singleValue c := by
  have hrefc : (v :: vs).getD i v = c := by
    rcases getD_mem_or_default (v :: vs) i v with h | h
    · exact hall _ h
    · rw [h]; exact hall v (List.mem_cons_self v vs)
  show (if scanMismatch ((v :: vs).getD i v) (v :: vs) then FieldViewState.conflict
      else FieldViewState.singleValue ((v :: vs).getD i v)) = FieldViewState.singleValue c
  rw [hrefc, scanMismatch_eq_false_of_all c (v :: vs) hall]
  rfl

theorem updateValue_conflict {α : Type} [DecidableEq α] (values : List α) (i : Nat) (a b : α)
    (ha : a ∈ values) (hb : b ∈ values) (hne : a ≠ b) :
    updateValueFromTracks values i = FieldViewState.conflict := by
  cases values with
  | nil => cases ha
  | cons v vs =>
    show (if scanMismatch ((v :: vs).getD i v) (v :: vs) then FieldViewState.conflict
        else FieldViewState.singleValue ((v :: vs).getD i v)) = FieldViewState.conflict
    have href : ((v :: vs).getD i v) ∈ v :: vs := by
      rcases getD_mem_or_default (v :: vs) i v with h | h
      · exact h
      · rw [h]; exact List.mem_cons_self v vs
    have hscan : scanMismatch ((v :: vs).getD i v) (v :: vs) = true := by
      by_cases har : a = (v :: vs).getD i v
      · have hbr : b ≠ (v :: vs).getD i v := fun hc => hne (har.trans hc.symm)
        exact scanMismatch_eq_true_of_mem _ b (v :: vs) hb hbr
      · exact scanMismatch_eq_true_of_mem _ a (v :: vs) ha har
    rw [hscan]
    rfl

/-- C7: the per-field diff of Field.update_value_from_tracks. On an
empty selection the state is empty; when every selected value equals c
the state is single-value c for every reference seed; when two selected
values differ the state is conflict for every reference seed; the
computed state never depends on which element the set iteration popped
as reference; and the scan stops at the first mismatching value — its
result is true no matter what follows that value. -/
theorem fieldView_diff_spec {α : Type} [DecidableEq α] (values : List α) (c : α)
    (i j : Nat) (a b : α) :
    (updateValueFromTracks ([] : List α) i = FieldViewState.empty) ∧
    (values ≠ [] → (∀ x ∈ values, x = c) →
      updateValueFromTracks values i = FieldViewState.singleValue c) ∧
    (a ∈ values → b ∈ values → a ≠ b →
      updateValueFromTracks values i = FieldViewState.conflict) ∧
    (updateValueFromTracks values i = updateValueFromTracks values j) ∧
    (∀ (ref : α) (l1 l2 : List α), ref ≠ b → scanMismatch ref (l1 ++ b :: l2) = true) := by
  refine ⟨rfl, ?_, ?_, ?_, ?_⟩
  · intro hne hall
    cases values with
    | nil => exact absurd rfl hne
    | cons v vs => exact updateValue_all_eq v vs c i hall
  · intro ha hb hne
    exact updateValue_conflict values i a b ha hb hne
  · cases values with
    | nil => rfl
    | cons v vs =>
      by_cases hall : ∀ x ∈ v :: vs, x = v
      · rw [updateValue_all_eq v vs v i hall, updateValue_all_eq v vs v j hall]
      · push_neg at hall
        obtain ⟨x, hx, hxv⟩ := hall
        rw [updateValue_conflict (v :: vs) i x v hx (List.mem_cons_self v vs) hxv,
          updateValue_conflict (v :: vs) j x v hx (List.mem_cons_self v vs) hxv]
  · intro ref l1 l2 hne
    induction l1 with
    | nil =>
      show scanMismatch ref (b :: l2) = true
      unfold scanMismatch
      rw [if_neg hne]
    | cons a1 l1 ih =>
      show scanMismatch ref (a1 :: (l1 ++ b :: l2)) = true
      unfold scanMismatch
      by_cases ha1 : ref = a1
      · rw [if_pos ha1]
        exact ih
      · rw [if_neg ha1]

/-- C7 witness: the selection with artist values ["A", "B", "A"] is a
conflict for reference seed 2. -/
theorem fieldView_diff_spec_witness :
    updateValueFromTracks ["A", "B", "A"] 2 = FieldViewState.conflict :=
  (fieldView_diff_spec ["A", "B", "A"] "A" 2 0 "A" "B").2.2.1 (by decide) (by decide)
    (by decide)

/-! ## C2: applying field values to the selection -/

/-- C2 counterexample: with the year field selected and the malformed
value "99", applying to two tracks raises the validation error on the
first track and aborts the whole method: both tracks end exactly as they
started, with zero persist calls each, instead of the error propagating
per-track with every track still persisted once. -/
theorem saveEntries_abort_counterexample :
    (saveEntriesToTracks [⟨true, SetterId.year, EntryValue.str "99"⟩]
        [⟨[], "d/z.mp3", 0⟩, ⟨[], "d/z.mp3", 0⟩]).2.isSome = true ∧
    (saveEntriesToTracks [⟨true, SetterId.year, EntryValue.str "99"⟩]
        [⟨[], "d/z.mp3", 0⟩, ⟨[], "d/z.mp3", 0⟩]).1 =
      [⟨[], "d/z.mp3", 0⟩, ⟨[], "d/z.mp3", 0⟩] ∧
    ((saveEntriesToTracks [⟨true, SetterId.year, EntryValue.str "99"⟩]
        [⟨[], "d/z.mp3", 0⟩, ⟨[], "d/z.mp3", 0⟩]).1.map (fun u => u.saves)) = [0, 0] := by
  decide

/-- C2 (amended): save_entries_to_tracks applies every selected field to
every selected track and calls save_tag exactly once per track only when
no setter raises. The first setter validation error aborts the method:
tracks before the failing one are fully applied and saved once, the
failing track keeps the fields applied before the error but is not
saved, and the remaining tracks are neither modified nor saved. -/
theorem saveEntries_characterization (fields : List Field) :
    (∀ tracks : List MP3Track,
      (∀ u ∈ tracks, (applyFieldsToTrack fields u).2 = none) →
      saveEntriesToTracks fields tracks =
        (tracks.map (fun u => saveTag (applyFieldsToTrack fields u).1), none)) ∧
    (∀ (pre post : List MP3Track) (t : MP3Track),
      (∀ u ∈ pre, (applyFieldsToTrack fields u).2 = none) →
      (applyFieldsToTrack fields t).2 ≠ none →
      saveEntriesToTracks fields (pre ++ t :: post) =
        (pre.map (fun u => saveTag (applyFieldsToTrack fields u).1)
          ++ (applyFieldsToTrack fields t).1 :: post,
         (applyFieldsToTrack fields t).2)) := by
  constructor
  · intro tracks
    induction tracks with
    | nil => intro _; rfl
    | cons t rest ih =>
      intro h
      rcases hp : applyFieldsToTrack fields t with ⟨t2, e⟩
      have he : e = none := by
        have h2 := h t (List.mem_cons_self t rest)
        rw [hp] at h2
        exact h2
      subst he
      have hrest := ih (fun u hu => h u (List.mem_cons_of_mem t hu))
      unfold saveEntriesToTracks
      rw [hp]
      simp only [hrest, List.map_cons, hp]
  · intro pre post t
    induction pre with
    | nil =>
      intro _ ht
      rcases hp : applyFieldsToTrack fields t with ⟨t2, e⟩
      rw [hp] at ht
      have he : ∃ msg, e = some msg := by
        cases e with
        | none => exact absurd rfl ht
        | some msg => exact ⟨msg, rfl⟩
      obtain ⟨msg, he⟩ := he
      subst he
      show saveEntriesToTracks fields (t :: post) = _
      unfold saveEntriesToTracks
      rw [hp]
      simp
    | cons u pre ih =>
      intro h ht
      rcases hp : applyFieldsToTrack fields u with ⟨u2, e⟩
      have he : e = none := by
        have h2 := h u (List.mem_cons_self u pre)
        rw [hp] at h2
        exact h2
      subst he
      have hrest := ih (fun w hw => h w (List.mem_cons_of_mem u hw)) ht
      show saveEntriesToTracks fields (u :: (pre ++ t :: post)) = _
      unfold saveEntriesToTracks
      rw [hp]
      simp only [hrest, List.map_cons, hp, List.cons_append]

/-- C2 witness: the abort case at the concrete input of the
counterexample, derived from the characterization. -/
theorem saveEntries_characterization_witness :
    saveEntriesToTracks [⟨true, SetterId.year, EntryValue.str "99"⟩]
        [⟨[], "d/z.mp3", 0⟩, ⟨[], "d/z.mp3", 0⟩] =
      ([⟨[], "d/z.mp3", 0⟩, ⟨[], "d/z.mp3", 0⟩],
        some "Year must be of the form \"YYYY\".") := by
  have h := (saveEntries_characterization [⟨true, SetterId.year, EntryValue.str "99"⟩]).2
    [] [⟨[], "d/z.mp3", 0⟩] ⟨[], "d/z.mp3", 0⟩ (by intro u hu; cases hu) (by decide)
  simpa using h

/-! ## C5: helper lemmas about the index and store maps -/

theorem lookupIndex_mem (idx : List (String × Nat)) (p : String) (i : Nat)
    (h : lookupIndex idx p = some i) : (p, i) ∈ idx := by
  unfold lookupIndex at h
  cases hf : idx.find? (fun e => e.1 == p) with
  | none => rw [hf] at h; cases h
  | some e =>
    rw [hf] at h
    have he1 : e.1 = p := by
      have := List.find?_some hf
      simpa using this
    have he2 : e.2 = i := by
      simpa using h
    have hmem := List.mem_of_find?_eq_some hf
    have : e = (p, i) := by
      rw [← he1, ← he2]
    rw [← this]
    exact hmem

theorem find?_key_cons_pos {κ β : Type} [BEq κ] (e : κ × β) (l : List (κ × β)) (q : κ)
    (h : (e.1 == q) = true) : List.find? (fun x => x.1 == q) (e :: l) = some e :=
  List.find?_cons_of_pos l h

theorem find?_key_cons_neg {κ β : Type} [BEq κ] (e : κ × β) (l : List (κ × β)) (q : κ)
    (h : ¬((e.1 == q) = true)) :
    List.find? (fun x => x.1 == q) (e :: l) = List.find? (fun x => x.1 == q) l :=
  List.find?_cons_of_neg l h

theorem lookupIndex_eq_none_iff (idx : List (String × Nat)) (p : String) :
    lookupIndex idx p = none ↔ ∀ e ∈ idx, e.1 ≠ p := by
  unfold lookupIndex
  cases hf : idx.find? (fun e => e.1 == p) with
  | none =>
    rw [List.find?_eq_none] at hf
    constructor
    · intro _ e he
      simpa using hf e he
    · intro _; rfl
  | some e =>
    constructor
    · intro h; cases h
    · intro h
      exfalso
      have he1 : e.1 = p := by simpa using List.find?_some hf
      exact h e (List.mem_of_find?_eq_some hf) he1

theorem mem_removeKey (idx : List (String × Nat)) (p : String) (e : String × Nat) :
    e ∈ removeKey idx p ↔ e ∈ idx ∧ e.1 ≠ p := by
  unfold removeKey
  rw [List.mem_filter]
  simp

theorem removeKey_eq_self (idx : List (String × Nat)) (p : String)
    (h : ∀ e ∈ idx, e.1 ≠ p) : removeKey idx p = idx := by
  unfold removeKey
  rw [List.filter_eq_self]
  intro e he
  simpa using h e he

theorem lookupIndex_removeKey_ne (idx : List (String × Nat)) (fp q : String)
    (h : ¬(q = fp)) : lookupIndex (removeKey idx fp) q = lookupIndex idx q := by
  induction idx with
  | nil => rfl
  | cons e idx ih =>
    show lookupIndex (List.filter _ (e :: idx)) q = _
    rw [List.filter_cons]
    by_cases he : e.1 = fp
    · have hq : ¬((e.1 == q) = true) := by
        simp only [beq_iff_eq]
        intro hc
        exact h (hc ▸ he)
      have hbe : (e.1 == fp) = true := by simpa using he
      simp only [hbe, Bool.not_true, Bool.false_eq_true, if_false]
      show lookupIndex (removeKey idx fp) q = lookupIndex (e :: idx) q
      rw [ih]
      unfold lookupIndex
      rw [find?_key_cons_neg e idx q hq]
    · have hne : (e.1 == fp) = false := by simpa using he
      simp only [hne, Bool.not_false, if_true]
      show lookupIndex (e :: removeKey idx fp) q = lookupIndex (e :: idx) q
      unfold lookupIndex
      by_cases hq : (e.1 == q) = true
      · rw [find?_key_cons_pos e _ q hq, find?_key_cons_pos e idx q hq]
      · rw [find?_key_cons_neg e _ q hq, find?_key_cons_neg e idx q hq]
        exact ih

theorem lookupIndex_append_of_some (l1 l2 : List (String × Nat)) (q : String) (i : Nat)
    (h : lookupIndex l1 q = some i) : lookupIndex (l1 ++ l2) q = some i := by
  induction l1 with
  | nil => cases h
  | cons e l1 ih =>
    unfold lookupIndex at *
    rw [List.cons_append]
    by_cases hq : (e.1 == q) = true
    · rw [find?_key_cons_pos e l1 q hq] at h
      rw [find?_key_cons_pos e _ q hq]
      exact h
    · rw [find?_key_cons_neg e l1 q hq] at h
      rw [find?_key_cons_neg e _ q hq]
      exact ih h

theorem insertKey_append (idx : List (String × Nat)) (p : String) (i : Nat)
    (h : ∀ e ∈ idx, e.1 ≠ p) : insertKey idx p i = idx ++ [(p, i)] := by
  unfold insertKey
  have hany : idx.any (fun e => e.1 == p) = false := by
    rw [List.any_eq_false]
    intro e he
    simpa using h e he
  rw [hany]
  simp

theorem find?_updateStore_ne (stores : List (Nat × MP3Track)) (i j : Nat)
    (t : MP3Track) (h : ¬(j = i)) :
    (updateStore stores i t).find? (fun e => e.1 == j) =
      stores.find? (fun e => e.1 == j) := by
  have hij : ¬((((i, t) : Nat × MP3Track).1 == j) = true) := by
    simp only [beq_iff_eq]
    intro hc
    exact h hc.symm
  induction stores with
  | nil => rfl
  | cons e stores ih =>
    unfold updateStore at *
    rw [List.map_cons]
    by_cases he : (e.1 == i) = true
    · simp only [he, if_true]
      rw [find?_key_cons_neg (i, t) _ j hij]
      have hej : ¬((e.1 == j) = true) := by
        simp only [beq_iff_eq]
        intro hc
        exact h ((by simpa using he : e.1 = i) ▸ hc).symm
      rw [find?_key_cons_neg e stores j hej]
      exact ih
    · simp only [he, Bool.false_eq_true, if_false]
      by_cases hej : (e.1 == j) = true
      · rw [find?_key_cons_pos e _ j hej, find?_key_cons_pos e stores j hej]
      · rw [find?_key_cons_neg e _ j hej, find?_key_cons_neg e stores j hej]
        exact ih

theorem lookupStore_updateStore_ne (stores : List (Nat × MP3Track)) (i j : Nat)
    (t : MP3Track) (h : ¬(j = i)) :
    lookupStore (updateStore stores i t) j = lookupStore stores j := by
  unfold lookupStore
  rw [find?_updateStore_ne stores i j t h]

theorem lookupStore_updateStore_self (stores : List (Nat × MP3Track)) (i : Nat)
    (t : MP3Track) (h : lookupStore stores i ≠ none) :
    lookupStore (updateStore stores i t) i = some t := by
  induction stores with
  | nil => exact absurd rfl h
  | cons e stores ih =>
    unfold lookupStore updateStore at *
    rw [List.map_cons]
    by_cases he : (e.1 == i) = true
    · simp only [he, if_true]
      rw [find?_key_cons_pos (i, t) _ i (by simp)]
    · simp only [he, Bool.false_eq_true, if_false]
      rw [find?_key_cons_neg e stores i he] at h
      rw [find?_key_cons_neg e _ i he]
      exact ih h

theorem renameFile_ok_inv (t : MP3Track) (fs : List String) (b : String)
    (t2 : MP3Track) (fs2 : List String) (h : renameFile t fs b = .ok (t2, fs2)) :
    fs.contains (joinPath (dirname t.filename) (ensureValidFilename b)) = false ∧
    fs.contains t.filename = true ∧
    t2 = { t with filename := joinPath (dirname t.filename) (ensureValidFilename b) } ∧
    fs2 = joinPath (dirname t.filename) (ensureValidFilename b) ::
      fs.filter (fun p => !(p == t.filename)) := by
  by_cases h1 : fs.contains (joinPath (dirname t.filename) (ensureValidFilename b)) = true
  · exfalso
    simp only [renameFile, h1, eq_self_iff_true, if_true] at h
    exact Except.noConfusion h
  · rw [Bool.not_eq_true] at h1
    simp only [renameFile, h1, Bool.false_eq_true, if_false] at h
    by_cases h2 : fs.contains t.filename = true
    · simp only [h2, eq_self_iff_true, if_true, Except.ok.injEq, Prod.mk.injEq] at h
      exact ⟨h1, h2, h.1.symm, h.2.symm⟩
    · exfalso
      rw [Bool.not_eq_true] at h2
      simp only [h2, Bool.false_eq_true, if_false] at h
      exact Except.noConfusion h

theorem tids_removeKey_perm (idx : List (String × Nat)) (fp : String) (tid : Nat)
    (hnd : (idx.map (fun e => e.1)).Nodup)
    (hmem : (fp, tid) ∈ idx) :
    (idx.map (fun e => e.2)).Perm ((removeKey idx fp).map (fun e => e.2) ++ [tid]) := by
  induction idx with
  | nil => cases hmem
  | cons e idx ih =>
    rw [List.map_cons] at hnd
    have hnd2 := List.nodup_cons.mp hnd
    rcases List.mem_cons.mp hmem with he | he
    · have hefp : e.1 = fp := by rw [← he]
      have hetid : e.2 = tid := by rw [← he]
      have hnofp : ∀ x ∈ idx, x.1 ≠ fp := by
        intro x hx hc
        apply hnd2.1
        rw [hefp, ← hc]
        exact List.mem_map_of_mem (fun e => e.1) hx
      have hrm : removeKey (e :: idx) fp = removeKey idx fp := by
        unfold removeKey
        rw [List.filter_cons]
        have : (!(e.1 == fp)) = false := by simp [hefp]
        rw [this]
        simp
      rw [hrm, removeKey_eq_self idx fp hnofp, List.map_cons, hetid]
      exact (List.perm_append_singleton tid (idx.map (fun e => e.2))).symm
    · have hfpmem : fp ∈ idx.map (fun e => e.1) := by
        have := List.mem_map_of_mem (fun e => e.1) he
        simpa using this
      have hefp : e.1 ≠ fp := by
        intro hc
        apply hnd2.1
        rw [hc]
        exact hfpmem
      have hrm : removeKey (e :: idx) fp = e :: removeKey idx fp := by
        unfold removeKey
        rw [List.filter_cons]
        have hbe : (!(e.1 == fp)) = true := by simpa using hefp
        rw [hbe]
        simp
      rw [hrm, List.map_cons, List.map_cons, List.cons_append]
      exact (ih hnd2.2 he).cons e.2

theorem renameStep_spec (st : TaggerState) (rep : RenameReport) (fp : String)
    (hcons : Consistent st) (hfp : lookupIndex st.index fp ≠ none) :
    ∃ st2 rep2,
      renameFilesStep st rep fp = some (st2, rep2) ∧
      Consistent st2 ∧
      (st2.index.map (fun e => e.2)).Perm (st.index.map (fun e => e.2)) ∧
      (∀ q, ¬(q = fp) → lookupIndex st.index q ≠ none →
        lookupIndex st2.index q = lookupIndex st.index q) ∧
      (rep2.alreadyExist = rep.alreadyExist ∨
        (rep2.alreadyExist = rep.alreadyExist ++ [fp] ∧ st2 = st)) := by
  cases hl : lookupIndex st.index fp with
  | none => exact absurd hl hfp
  | some tid =>
  have hmem : (fp, tid) ∈ st.index := lookupIndex_mem _ _ _ hl
  have hfnIs := hcons.2.2 (fp, tid) hmem
  cases hs : lookupStore st.stores tid with
  | none =>
    exfalso
    unfold storeFilenameIs at hfnIs
    rw [hs] at hfnIs
    cases hfnIs
  | some track =>
  have htfn : track.filename = fp := by
    unfold storeFilenameIs at hfnIs
    rw [hs] at hfnIs
    simpa using hfnIs
  by_cases hie : (fileNameInfoOf track).isEmpty = true
  · refine ⟨st, { rep with notEnoughInfo := rep.notEnoughInfo ++ [fp] }, ?_, hcons,
      List.Perm.refl _, fun q _ _ => rfl, Or.inl rfl⟩
    simp only [renameFilesStep, hl, hs, hie, if_true]
  · rw [Bool.not_eq_true] at hie
    by_cases hskip : (basename track.filename == newBaseOf track) = true
    · refine ⟨st, rep, ?_, hcons, List.Perm.refl _, fun q _ _ => rfl, Or.inl rfl⟩
      simp only [renameFilesStep, hl, hs, hie, Bool.false_eq_true, if_false, hskip, if_true]
    · rw [Bool.not_eq_true] at hskip
      cases hr : renameFile track st.fs (newBaseOf track) with
      | error msg =>
        refine ⟨st, { rep with alreadyExist := rep.alreadyExist ++ [fp] }, ?_, hcons,
          List.Perm.refl _, fun q _ _ => rfl, Or.inr ⟨rfl, rfl⟩⟩
        simp only [renameFilesStep, hl, hs, hie, Bool.false_eq_true, if_false, hskip, hr]
      | ok pr =>
        obtain ⟨track2, fs2⟩ := pr
        obtain ⟨hc1, hc2, ht2, hf2⟩ := renameFile_ok_inv track st.fs (newBaseOf track)
          track2 fs2 hr
        subst ht2
        subst hf2
        have hNmem : joinPath (dirname track.filename)
            (ensureValidFilename (newBaseOf track)) ∉ st.fs := by
          simpa using hc1
        have hfmem : fp ∈ st.fs := by
          rw [htfn] at hc2
          simpa using hc2
        have hNnotkey : ∀ e ∈ removeKey st.index fp,
            e.1 ≠ joinPath (dirname track.filename) (ensureValidFilename (newBaseOf track)) := by
          intro e he hc
          apply hNmem
          rw [← hc]
          exact hcons.2.1 e ((mem_removeKey _ _ _).mp he).1
        have hidx2 : insertKey (removeKey st.index fp)
            (joinPath (dirname track.filename) (ensureValidFilename (newBaseOf track))) tid =
            removeKey st.index fp ++
              [(joinPath (dirname track.filename) (ensureValidFilename (newBaseOf track)), tid)] :=
          insertKey_append _ _ _ hNnotkey
        refine ⟨⟨joinPath (dirname track.filename) (ensureValidFilename (newBaseOf track)) ::
              List.filter (fun p => !(p == track.filename)) st.fs,
            removeKey st.index fp ++
              [(joinPath (dirname track.filename) (ensureValidFilename (newBaseOf track)), tid)],
            updateStore st.stores tid
              { track with filename := joinPath (dirname track.filename) (ensureValidFilename (newBaseOf track)) }⟩,
          rep, ?_, ?_, ?_, ?_, Or.inl rfl⟩
        · simp only [renameFilesStep, hl, hs, hie, Bool.false_eq_true, if_false, hskip, hr,
            hidx2]
        · refine ⟨?_, ?_, ?_⟩
          · show ((removeKey st.index fp ++ [(joinPath (dirname track.filename) (ensureValidFilename (newBaseOf track)), tid)]).map (fun e => e.1)).Nodup
            rw [List.map_append, List.nodup_append]
            refine ⟨?_, by simp, ?_⟩
            · exact List.Nodup.sublist
                (List.Sublist.map (fun e => e.1) (List.filter_sublist st.index)) hcons.1
            · intro a ha hb
              simp only [List.map_cons, List.map_nil, List.mem_singleton] at hb
              obtain ⟨e, he, hea⟩ := List.mem_map.mp ha
              exact hNnotkey e he (hea.trans hb)
          · intro e2 he2
            rcases List.mem_append.mp he2 with h2 | h2
            · obtain ⟨hein, hne⟩ := (mem_removeKey _ _ _).mp h2
              have hefs : e2.1 ∈ st.fs := hcons.2.1 e2 hein
              apply List.mem_cons_of_mem
              rw [List.mem_filter]
              refine ⟨hefs, ?_⟩
              rw [htfn]
              simpa using hne
            · simp only [List.mem_singleton] at h2
              rw [h2]
              exact List.mem_cons_self _ _
          · intro e2 he2
            rcases List.mem_append.mp he2 with h2 | h2
            · obtain ⟨hein, hne⟩ := (mem_removeKey _ _ _).mp h2
              have hold := hcons.2.2 e2 hein
              have hne2 : ¬(e2.2 = tid) := by
                intro hc
                unfold storeFilenameIs at hold
                rw [hc, hs] at hold
                have : track.filename = e2.1 := by simpa using hold
                exact hne (by rw [← this, htfn])
              unfold storeFilenameIs at hold ⊢
              rw [lookupStore_updateStore_ne st.stores tid e2.2 _ hne2]
              exact hold
            · simp only [List.mem_singleton] at h2
              rw [h2]
              unfold storeFilenameIs
              rw [lookupStore_updateStore_self st.stores tid _ (by rw [hs]; simp)]
              simp
        · show ((removeKey st.index fp ++ [(joinPath (dirname track.filename) (ensureValidFilename (newBaseOf track)), tid)]).map (fun e => e.2)).Perm _
          rw [List.map_append]
          exact (tids_removeKey_perm st.index fp tid hcons.1 hmem).symm
        · intro q hq hqdef
          cases hql : lookupIndex st.index q with
          | none => exact absurd hql hqdef
          | some iq =>
            show lookupIndex (removeKey st.index fp ++ [(joinPath (dirname track.filename) (ensureValidFilename (newBaseOf track)), tid)]) q = some iq
            apply lookupIndex_append_of_some
            rw [lookupIndex_removeKey_ne st.index fp q hq]
            exact hql

theorem renameFilesGo_spec (selected : List String) :
    ∀ (st : TaggerState) (rep : RenameReport),
    Consistent st →
    (∀ p ∈ selected, lookupIndex st.index p ≠ none) →
    selected.Nodup →
    ∃ st2 rep2,
      renameFilesGo st rep selected = some (st2, rep2) ∧
      Consistent st2 ∧
      (st2.index.map (fun e => e.2)).Perm (st.index.map (fun e => e.2)) ∧
      (∀ q, q ∉ selected → lookupIndex st.index q ≠ none →
        lookupIndex st2.index q = lookupIndex st.index q) ∧
      (∀ p ∈ rep2.alreadyExist, p ∈ rep.alreadyExist ∨
        lookupIndex st2.index p = lookupIndex st.index p) ∧
      (∀ p ∈ rep2.alreadyExist, p ∈ rep.alreadyExist ∨ p ∈ selected) := by
  induction selected with
  | nil =>
    intro st rep hcons _ _
    exact ⟨st, rep, rfl, hcons, List.Perm.refl _, fun q _ _ => rfl,
      fun p hp => Or.inl hp, fun p hp => Or.inl hp⟩
  | cons fp rest ih =>
    intro st rep hcons hsel hnd
    have hndc := List.nodup_cons.mp hnd
    obtain ⟨st1, rep1, hstep, hcons1, hperm1, hpres1, hAE1⟩ :=
      renameStep_spec st rep fp hcons (hsel fp (List.mem_cons_self fp rest))
    have hsel1 : ∀ p ∈ rest, lookupIndex st1.index p ≠ none := by
      intro p hp
      have hne : ¬(p = fp) := fun hc => hndc.1 (hc ▸ hp)
      have h0 := hsel p (List.mem_cons_of_mem fp hp)
      rw [hpres1 p hne h0]
      exact h0
    obtain ⟨st2, rep2, hgo, hcons2, hperm2, hpres2, hAE2, hAEsel2⟩ :=
      ih st1 rep1 hcons1 hsel1 hndc.2
    refine ⟨st2, rep2, ?_, hcons2, hperm2.trans hperm1, ?_, ?_, ?_⟩
    · unfold renameFilesGo
      rw [hstep]
      exact hgo
    · intro q hq hqdef
      have hqfp : ¬(q = fp) := fun hc => hq (hc ▸ List.mem_cons_self fp rest)
      have hqrest : q ∉ rest := fun hc => hq (List.mem_cons_of_mem fp hc)
      have h1 := hpres1 q hqfp hqdef
      have hqdef1 : lookupIndex st1.index q ≠ none := by rw [h1]; exact hqdef
      rw [hpres2 q hqrest hqdef1, h1]
    · intro p hp
      rcases hAE2 p hp with h2 | h2
      · -- p was already in the report after the head step
        rcases hAE1 with hA | ⟨hA, hsteq⟩
        · exact Or.inl (hA ▸ h2)
        · rw [hA] at h2
          rcases List.mem_append.mp h2 with h3 | h3
          · exact Or.inl h3
          · simp only [List.mem_singleton] at h3
            subst h3
            right
            have hfpdef : lookupIndex st1.index p ≠ none := by
              rw [hsteq]
              exact hsel p (List.mem_cons_self p rest)
            have hkeep := hpres2 p hndc.1 hfpdef
            rw [hkeep, hsteq]
      · -- p entered the report during the tail and its key survived the tail
        rcases hAE1 with hA | ⟨hA, hsteq⟩
        · rcases hAEsel2 p hp with h3 | h3
          · exact Or.inl (hA ▸ h3)
          · have hpfp : ¬(p = fp) := fun hc => hndc.1 (hc ▸ h3)
            right
            rw [h2, hpres1 p hpfp (hsel p (List.mem_cons_of_mem fp h3))]
        · right
          rw [h2, hsteq]
    · intro p hp
      rcases hAEsel2 p hp with h2 | h2
      · rcases hAE1 with hA | ⟨hA, _⟩
        · exact Or.inl (hA ▸ h2)
        · rw [hA] at h2
          rcases List.mem_append.mp h2 with h3 | h3
          · exact Or.inl h3
          · simp only [List.mem_singleton] at h3
            exact Or.inr (h3 ▸ List.mem_cons_self fp rest)
      · exact Or.inr (List.mem_cons_of_mem fp h2)

/-- C5: batch rename of a consistent selection. The batch always runs to
completion (collisions are recorded per file, never aborting); afterwards
the path-to-store index is again consistent — its keys are distinct (at
most one store per path) and every entry, in particular every
successfully renamed track, is keyed by its store's current path — the
multiset of store instances is preserved (re-keying never drops or
duplicates a store), every path recorded as a name collision still maps
to exactly the store it mapped to before the batch, and only selected
paths are reported as collisions. -/
theorem rename_batch_index_rekeying (st : TaggerState) (selected : List String)
    (rep : RenameReport) (fp : String) (tid : Nat) (track : MP3Track) (msg : String)
    (hcons : Consistent st)
    (hsel : ∀ p ∈ selected, lookupIndex st.index p ≠ none)
    (hnd : selected.Nodup) :
    ((lookupIndex st.index fp = some tid →
      lookupStore st.stores tid = some track →
      (fileNameInfoOf track).isEmpty = false →
      (basename track.filename == newBaseOf track) = false →
      renameFile track st.fs (newBaseOf track) = .error msg →
      renameFilesStep st rep fp =
        some (st, { rep with alreadyExist := rep.alreadyExist ++ [fp] }))) ∧
    (∃ st2 rep2,
      renameFiles st selected = some (st2, rep2) ∧
      Consistent st2 ∧
      (st2.index.map (fun e => e.2)).Perm (st.index.map (fun e => e.2)) ∧
      (∀ p ∈ rep2.alreadyExist, lookupIndex st2.index p = lookupIndex st.index p) ∧
      (∀ p ∈ rep2.alreadyExist, p ∈ selected)) := by
  constructor
  · intro h1 h2 h3 h4 h5
    simp only [renameFilesStep, h1, h2, h3, Bool.false_eq_true, if_false, h4, h5]
  · obtain ⟨st2, rep2, h1, h2, h3, _, h5, h6⟩ :=
      renameFilesGo_spec selected st ⟨[], []⟩ hcons hsel hnd
    refine ⟨st2, rep2, h1, h2, h3, ?_, ?_⟩
    · intro p hp
      rcases h5 p hp with h | h
      · exact absurd h (List.not_mem_nil p)
      · exact h
    · intro p hp
      rcases h6 p hp with h | h
      · exact absurd h (List.not_mem_nil p)
      · exact h

/-- C5 witness: a collision is recorded as a per-file failure with the
state untouched (first conjunct, on a state where the target name is
taken), and for two tracks whose tags compute the same target name the
whole batch runs with the stated index properties (second conjunct). -/
theorem rename_batch_index_rekeying_witness :
    (renameFilesStep
        ⟨["d/A - B - C.mp3", "d/y.mp3"], [("d/y.mp3", 2)],
          [(2, ⟨[Frame.text TextKey.TPE1 ["A"], Frame.text TextKey.TALB ["B"],
                 Frame.text TextKey.TIT2 ["C"]], "d/y.mp3", 0⟩)]⟩
        ⟨[], []⟩ "d/y.mp3" =
      some (⟨["d/A - B - C.mp3", "d/y.mp3"], [("d/y.mp3", 2)],
          [(2, ⟨[Frame.text TextKey.TPE1 ["A"], Frame.text TextKey.TALB ["B"],
                 Frame.text TextKey.TIT2 ["C"]], "d/y.mp3", 0⟩)]⟩,
        ⟨[], ["d/y.mp3"]⟩)) ∧
    (∃ st2 rep2,
      renameFiles
          ⟨["d/x.mp3", "d/y.mp3"], [("d/x.mp3", 1), ("d/y.mp3", 2)],
            [(1, ⟨[Frame.text TextKey.TPE1 ["A"], Frame.text TextKey.TALB ["B"],
                   Frame.text TextKey.TIT2 ["C"]], "d/x.mp3", 0⟩),
             (2, ⟨[Frame.text TextKey.TPE1 ["A"], Frame.text TextKey.TALB ["B"],
                   Frame.text TextKey.TIT2 ["C"]], "d/y.mp3", 0⟩)]⟩
          ["d/x.mp3", "d/y.mp3"] = some (st2, rep2) ∧
      Consistent st2 ∧
      (st2.index.map (fun e => e.2)).Perm
        (([("d/x.mp3", 1), ("d/y.mp3", 2)] : List (String × Nat)).map (fun e => e.2)) ∧
      (∀ p ∈ rep2.alreadyExist, lookupIndex st2.index p =
        lookupIndex [("d/x.mp3", 1), ("d/y.mp3", 2)] p) ∧
      (∀ p ∈ rep2.alreadyExist, p ∈ ["d/x.mp3", "d/y.mp3"])) :=
  ⟨(rename_batch_index_rekeying
      ⟨["d/A - B - C.mp3", "d/y.mp3"], [("d/y.mp3", 2)],
        [(2, ⟨[Frame.text TextKey.TPE1 ["A"], Frame.text TextKey.TALB ["B"],
               Frame.text TextKey.TIT2 ["C"]], "d/y.mp3", 0⟩)]⟩
      [] ⟨[], []⟩ "d/y.mp3" 2
      ⟨[Frame.text TextKey.TPE1 ["A"], Frame.text TextKey.TALB ["B"],
        Frame.text TextKey.TIT2 ["C"]], "d/y.mp3", 0⟩
      "Cannot rename file. File with same name already exists."
      (by decide) (by intro p hp; cases hp) (by decide)).1
      rfl rfl (by decide) (by decide) rfl,
    (rename_batch_index_rekeying
      ⟨["d/x.mp3", "d/y.mp3"], [("d/x.mp3", 1), ("d/y.mp3", 2)],
        [(1, ⟨[Frame.text TextKey.TPE1 ["A"], Frame.text TextKey.TALB ["B"],
               Frame.text TextKey.TIT2 ["C"]], "d/x.mp3", 0⟩),
         (2, ⟨[Frame.text TextKey.TPE1 ["A"], Frame.text TextKey.TALB ["B"],
               Frame.text TextKey.TIT2 ["C"]], "d/y.mp3", 0⟩)]⟩
      ["d/x.mp3", "d/y.mp3"] ⟨[], []⟩ "d/x.mp3" 1
      ⟨[], "d/x.mp3", 0⟩ ""
      (by decide) (by decide) (by decide)).2⟩

end MP3Tagger
